import Mathlib

/-!
Verification development for the SEC filing retrieval and text-extraction
pipeline (`SEC_API_Analysis.py` and `SEC_Scrape_Analysis.py`).

The Python functions are shallowly embedded as executable Lean definitions:

* regular-expression extractors are embedded as deterministic parsers over
  `List Char` (each regex used by the scripts is whitespace/greediness
  deterministic, so a greedy parser has exactly the Python `re` semantics);
  `re.search`/`re.findall`-first-match scanning is `reSearch`, which tries
  every start position from the left;
* network calls are values of `Except String α` (an `Except.error`
  models a raised exception, `Except.ok` a returned response);
* the `while` pagination loop of `query_filings` is a fuel-indexed
  structural recursion; the caller passes `desired_count + 1` fuel, which
  is provably sufficient because every non-final iteration appends at
  least one record (see `queryLoop_fuel_irrel`);
* `random.sample` is modelled as selection without replacement driven by
  an explicit stream of random draws (`sampleAux`);
* character classes (`\s`, `\d`, case mapping) are modelled over ASCII,
  which is the code points the filing text and all patterns use.
-/

/-- Python `\s` (ASCII range): space, tab, newline, carriage return,
vertical tab, form feed. -/
def isWs (c : Char) : Bool :=
  c.toNat = 32 || c.toNat = 9 || c.toNat = 10 || c.toNat = 13 || c.toNat = 11 || c.toNat = 12

/-- The sentence-terminal class `[.!?]` of the sentence splitter. -/
def isPunct (c : Char) : Bool :=
  c.toNat = 46 || c.toNat = 33 || c.toNat = 63

/-- ASCII lowercase letter test. -/
def isLowerAscii (c : Char) : Bool :=
  97 ≤ c.toNat && c.toNat ≤ 122

/-- ASCII uppercase letter test. -/
def isUpperAscii (c : Char) : Bool :=
  65 ≤ c.toNat && c.toNat ≤ 90

/-- Python `str.lower` / `re.IGNORECASE` folding, on the ASCII letters. -/
def pyToLower (c : Char) : Char :=
  if isUpperAscii c then Char.ofNat (c.toNat + 32) else c

/-- Python `str.upper`, on the ASCII letters. -/
def pyToUpper (c : Char) : Char :=
  if isLowerAscii c then Char.ofNat (c.toNat - 32) else c

/-- Does `cs` start with `pat` (character-exact)? -/
def startsWithL : List Char → List Char → Bool
  | [], _ => true
  | _ :: _, [] => false
  | p :: ps, c :: cs => (p == c) && startsWithL ps cs

/-- Does `cs` contain `pat` as a contiguous substring?  This is
`re.search` of a literal pattern. -/
def containsSub (pat : List Char) : List Char → Bool
  | [] => startsWithL pat []
  | c :: cs => startsWithL pat (c :: cs) || containsSub pat cs

/-- Left-to-right regex scan: try the pattern matcher `f` at every start
position, leftmost success wins.  This is how `re.search`/`re.findall`
locate the first match. -/
def reSearch {α : Type} (f : List Char → Option α) : List Char → Option α
  | [] => f []
  | c :: cs =>
    match f (c :: cs) with
    | some a => some a
    | none => reSearch f cs

/-- Match one exact character. -/
def parseChar (a : Char) : List Char → Option (List Char)
  | [] => none
  | c :: cs => if c = a then some cs else none

/-- Regex `\s*` (greedy; deterministic because every continuation in the
patterns below starts with a non-whitespace character). -/
def skipWs (cs : List Char) : List Char :=
  cs.dropWhile isWs

/-- Regex `\s+`. -/
def parseWs1 : List Char → Option (List Char)
  | [] => none
  | c :: cs => if isWs c then some (skipWs cs) else none

/-- Regex `\.?` (greedy optional literal dot). -/
def parseOptDot : List Char → List Char
  | [] => []
  | c :: cs => if c = '.' then cs else c :: cs

/-- Case-insensitive literal (the pattern `pat` is given in lowercase),
implementing a literal under `re.IGNORECASE`. -/
def parseLitCI : List Char → List Char → Option (List Char)
  | [], cs => some cs
  | _ :: _, [] => none
  | p :: ps, c :: cs => if pyToLower c = p then parseLitCI ps cs else none

/-- Regex `(\d+)` (greedy), returning the captured digits and the rest. -/
def parseDigits (cs : List Char) : Option (List Char × List Char) :=
  match cs.takeWhile Char.isDigit with
  | [] => none
  | d :: ds => some (d :: ds, cs.dropWhile Char.isDigit)

/-- Python `str.strip`. -/
def stripL (cs : List Char) : List Char :=
  ((cs.dropWhile isWs).reverse.dropWhile isWs).reverse

/-- Python `str.strip` on `String`. -/
def pyStrip (s : String) : String :=
  String.mk (stripL s.data)

/-! ## `extract_item1_business` (SEC_API_Analysis.py lines 196-208)

  `pattern = r'ITEM\s+1\s*\.?\s*BUSINESS.*?(?=ITEM\s+1A\s*\.?\s*RISK\s+FACTORS)'`
  `matches = re.findall(pattern, text, flags=re.IGNORECASE | re.DOTALL)`
  `return matches[0] if matches else ""`
-/

/-- The start marker `ITEM\s+1\s*\.?\s*BUSINESS` under `IGNORECASE`,
anchored at the head of `cs`; returns the remaining input. -/
def startParseItem1 (cs : List Char) : Option (List Char) := do
  let r ← parseLitCI (("item").data) cs
  let r ← parseWs1 r
  let r ← parseLitCI (("1").data) r
  let r := skipWs r
  let r := parseOptDot r
  let r := skipWs r
  parseLitCI (("business").data) r

/-- The lookahead end marker `ITEM\s+1A\s*\.?\s*RISK\s+FACTORS` under
`IGNORECASE`, anchored at the head of `cs`. -/
def endParseItem1A (cs : List Char) : Option (List Char) := do
  let r ← parseLitCI (("item").data) cs
  let r ← parseWs1 r
  let r ← parseLitCI (("1a").data) r
  let r := skipWs r
  let r := parseOptDot r
  let r := skipWs r
  let r ← parseLitCI (("risk").data) r
  let r ← parseWs1 r
  parseLitCI (("factors").data) r

/-- Offset of the first position (0-based, scanning rightwards) at which
the end marker matches; `.*?` is non-greedy, so the match ends at the
smallest such offset. -/
def findEnd : List Char → Option Nat
  | [] => if (endParseItem1A []).isSome then some 0 else none
  | c :: t =>
    if (endParseItem1A (c :: t)).isSome then some 0
    else (findEnd t).map (· + 1)

/-- The whole pattern anchored at the head of `cs`: start marker, then the
shortest `.*?` (DOTALL) whose end satisfies the lookahead.  Returns the
full matched text (`re.findall` with no groups returns full matches). -/
def tryItem1 (cs : List Char) : Option (List Char) :=
  match startParseItem1 cs with
  | none => none
  | some rest =>
    match findEnd rest with
    | none => none
    | some k => some (cs.take (cs.length - rest.length + k))

/-- `extract_item1_business`: first match of the Item 1 pattern in the
text, or the empty string if there is none. -/
def extract_item1_business (text : String) : String :=
  match reSearch tryItem1 text.data with
  | some m => String.mk m
  | none => ""

/-- The concrete input of the section-extractor boundary scenario. -/
def c1Input : String :=
  "...ITEM 1. BUSINESS Foo bar. ITEM 1A. RISK FACTORS Baz..."

/-! ## `extract_ai_sentences` (SEC_API_Analysis.py lines 210-222)

  `pattern_ai = re.compile(r'artificial intelligence', flags=re.IGNORECASE)`
  `sentences = re.split(r'(?<=[.!?])\s+', text)`
  `return [s for s in sentences if pattern_ai.search(s)]`
-/

/-- Scanner for `re.split(r'(?<=[.!?])\s+', text)`.  `mode = true` means
we are inside a delimiter (a maximal whitespace run preceded by `[.!?]`);
`cur` is the current segment reversed; `prev` is the previous character
(the lookbehind). -/
def splitSentAux (mode : Bool) (cur : List Char) (prev : Char) : List Char → List (List Char)
  | [] => [cur.reverse]
  | c :: rest =>
    if mode then
      if isWs c then splitSentAux true [] prev rest
      else splitSentAux false [c] c rest
    else
      if isPunct prev && isWs c then cur.reverse :: splitSentAux true [] prev rest
      else splitSentAux false (c :: cur) c rest

/-- `re.split(r'(?<=[.!?])\s+', text)` (the lookbehind cannot fire at
position 0, hence the non-punctuation seed character). -/
def splitSentences (cs : List Char) : List (List Char) :=
  splitSentAux false [] ' ' cs

/-- The fixed topic phrase, lowercase. -/
def aiPhrase : List Char :=
  ("artificial intelligence").data

/-- `extract_ai_sentences`: the sentences of `text` whose lowercase form
contains the phrase `"artificial intelligence"`. -/
def extract_ai_sentences (text : String) : List String :=
  ((splitSentences text.data).map (fun cs => String.mk cs)).filter
    (fun s => containsSub aiPhrase (s.data.map pyToLower))

/-- The concrete input of the sentence-matcher exactness scenario. -/
def c5Input : String :=
  "We use AI. We use Artificial Intelligence daily."

/-- The single sentence that scenario must return. -/
def c5Sentence : String :=
  "We use Artificial Intelligence daily."

/-! ## `query_filings` (SEC_API_Analysis.py lines 48-93)

  A raw filing is the JSON record served by the search endpoint; the loop
  maps each one through `.get` calls into the collected dictionary.  The
  `api` argument models `api.get_filings`: `Except.error` is a raised
  network exception, `Except.ok none` a response without a `"filings"`
  key (`result.get("filings", [])` then yields `[]`), `Except.ok (some l)`
  a response with filings `l`.
-/

/-- A record served by the filings search endpoint (`.get` fields may be
absent). -/
structure RawFiling where
  cik : Option String := none
  companyName : Option String := none
  formType : Option String := none
  filedAt : Option String := none
  accessionNo : Option String := none
  linkToFilingDetails : Option String := none
deriving DecidableEq

/-- The dictionary appended to `filings_list` for one raw filing. -/
structure FilingRec where
  cik : Option String
  companyName : Option String
  formType : Option String
  filedAt : Option String
  accessionNumber : Option String
  fileLink : Option String
deriving DecidableEq

/-- The per-record mapping done inside the pagination loop. -/
def toRec (f : RawFiling) : FilingRec :=
  { cik := f.cik
    companyName := f.companyName
    formType := f.formType
    filedAt := f.filedAt
    accessionNumber := f.accessionNo
    fileLink := f.linkToFilingDetails }

/-- The `while len(filings_list) < desired_count` loop of
`query_filings`, with a ghost request counter (`reqs`) counting the
`api.get_filings` calls.  The loop is driven by structural fuel;
`query_filings` passes `desired_count + 1`, which never runs out because
every iteration that continues appends at least one record (see
`queryLoop_fuel_irrel`).  The `time.sleep(1)` between pages has no
observable effect here and is omitted. -/
def queryLoop (api : Nat → Except String (Option (List RawFiling))) (desired page_size : Nat) :
    Nat → Nat → List FilingRec → Nat → Except String (List FilingRec × Nat)
  | 0, _, acc, reqs => Except.ok (acc, reqs)
  | fuel + 1, start, acc, reqs =>
    if acc.length < desired then
      match api start with
      | Except.error e => Except.error e
      | Except.ok result =>
        match result.getD [] with
        | [] => Except.ok (acc, reqs + 1)
        | f :: fs =>
          queryLoop api desired page_size fuel (start + page_size)
            (acc ++ (f :: fs).map toRec) (reqs + 1)
    else Except.ok (acc, reqs)

/-- One selection step of `random.sample(pool, k)`: draw an index from
the random stream, take that element, remove it from the pool, recurse.
This is sampling without replacement with the random source made an
explicit stream of draws. -/
def sampleAux {α : Type} : List Nat → Nat → List α → List α
  | _, 0, _ => []
  | _, _ + 1, [] => []
  | rands, k + 1, c :: t =>
    let j := rands.headD 0 % (c :: t).length
    (c :: t).get ⟨j, Nat.mod_lt _ (Nat.succ_pos _)⟩ ::
      sampleAux rands.tail k ((c :: t).take j ++ (c :: t).drop (j + 1))

/-- Lines 89-90 of `query_filings`:
`if len(filings_list) > desired_count: filings_list = random.sample(filings_list, desired_count)`.
This is the Sampling Reducer. -/
def sampleReduce {α : Type} (rands : List Nat) (records : List α) (target : Nat) : List α :=
  if target < records.length then sampleAux rands target records else records

/-- `query_filings api query_str desired_count page_size` — the query
string only parametrises the collaborator, so it is folded into `api`.
Returns the collected (and possibly down-sampled) records together with
the ghost count of page requests issued. -/
def query_filings (api : Nat → Except String (Option (List RawFiling)))
    (rands : List Nat) (desired page_size : Nat) :
    Except String (List FilingRec × Nat) :=
  (queryLoop api desired page_size (desired + 1) 0 [] 0).map
    (fun p => (sampleReduce rands p.1 desired, p.2))

/-- A collaborator whose every page request raises a network exception. -/
def errApi : Nat → Except String (Option (List RawFiling)) :=
  fun _ => Except.error ("network error")

/-- The `i`-th record of the mock source. -/
def mockRaw (i : Nat) : RawFiling :=
  { accessionNo := some (toString i) }

/-- A mock source holding `n` total records served in pages of size `p`:
the page at offset `start` holds records `start … min (start+p) n - 1`. -/
def mockApi (n p : Nat) : Nat → Except String (Option (List RawFiling)) :=
  fun start => Except.ok (some ((((List.range n).drop start).take p).map mockRaw))

/-- The number of page requests `query_filings` issues against
`mockApi n p` when asked for `d` records: `⌈d/p⌉` when the source can
satisfy the target, and `⌈n/p⌉ + 1` when it exhausts first (the final
request returns an empty page and reveals the exhaustion). -/
def mockReqs (n p d : Nat) : Nat :=
  if d ≤ n then (d + p - 1) / p else (n + p - 1) / p + 1

/-! ## `get_submission_data` / `enrich_header_data` (SEC_API_Analysis.py lines 95-148) -/

/-- A nested address object of the submissions endpoint payload. -/
structure Address where
  state : Option String := none
  city : Option String := none
  zip : Option String := none
deriving DecidableEq

/-- The submissions endpoint payload; fields may be absent (`.get`). -/
structure Submission where
  name : Option String := none
  stateOfIncorporation : Option String := none
  sic : Option String := none
  businessAddress : Option Address := none
  mailingAddress : Option Address := none
deriving DecidableEq

/-- `get_submission_data`: return the parsed payload on a 200 response,
the empty dict otherwise. -/
def get_submission_data (resp : Nat × Submission) : Submission :=
  if resp.1 = 200 then resp.2 else {}

/-- Lines 127-131 of `enrich_header_data`: the state fallback chain
(`stateOfIncorporation`, then `businessAddress.state`, then
`mailingAddress.state`, each defaulting to `""`, the first non-empty
winning — Python's `if not state` is emptiness of the string). -/
def resolveState (submission : Submission) : String :=
  let state := submission.stateOfIncorporation.getD ("")
  if state = "" then
    let state := ((submission.businessAddress.getD {}).state).getD ("")
    if state = "" then ((submission.mailingAddress.getD {}).state).getD ("")
    else state
  else state

/-- One row of the enriched header DataFrame. -/
structure HeaderRow where
  cik : Option String
  companyName : Option String
  formType : Option String
  filingDate : Option String
  sic : String
  state : String
  city : String
  zip : String
  accessionNumber : Option String
  fileLink : Option String
deriving DecidableEq

/-- The dictionary built for one row of `filings_df` (the
`pd.to_datetime` conversion of the date column is presentation and is
omitted). -/
def enrichRow (lookup : Option String → Submission) (row : FilingRec) : HeaderRow :=
  let submission := lookup row.cik
  { cik := row.cik
    companyName := match submission.name with
                   | some n => some n
                   | none => row.companyName
    formType := row.formType
    filingDate := row.filedAt
    sic := submission.sic.getD ("")
    state := resolveState submission
    city := ((submission.businessAddress.getD {}).city).getD ("")
    zip := ((submission.businessAddress.getD {}).zip).getD ("")
    accessionNumber := row.accessionNumber
    fileLink := row.fileLink }

/-- `enrich_header_data`: one profile lookup and row build per filing
row, in order. -/
def enrich_header_data (lookup : Option String → Submission) (rows : List FilingRec) : List HeaderRow :=
  rows.map (enrichRow lookup)

/-! ## `get_filing_text` (SEC_API_Analysis.py lines 169-194)

  The parsed HTML body (BeautifulSoup's tree) is modelled as a
  first-order forest: a forest is a sequence of nodes, each node either a
  text node or an element with a tag and a child forest.
-/

/-- A parsed HTML forest (`textCons s rest` is a text node followed by
`rest`; `elemCons tag children rest` an element followed by `rest`). -/
inductive Forest where
  | nil : Forest
  | textCons : String → Forest → Forest
  | elemCons : String → Forest → Forest → Forest
deriving DecidableEq

/-- `soup.find_all("document")`: the child forests of all `document`
elements, in document order (an element precedes its descendants). -/
def findAllDocs : Forest → List Forest
  | Forest.nil => []
  | Forest.textCons _ rest => findAllDocs rest
  | Forest.elemCons tag children rest =>
    (if tag = "document" then [children] else []) ++ (findAllDocs children ++ findAllDocs rest)

/-- `node.find(tag)`: the child forest of the first descendant element
with the given tag, in document order. -/
def findFirstTag (t : String) : Forest → Option Forest
  | Forest.nil => none
  | Forest.textCons _ rest => findFirstTag t rest
  | Forest.elemCons tag children rest =>
    if tag = t then some children
    else
      match findFirstTag t children with
      | some f => some f
      | none => findFirstTag t rest

/-- All text-node strings of a forest, in document order. -/
def textsF : Forest → List String
  | Forest.nil => []
  | Forest.textCons s rest => s :: textsF rest
  | Forest.elemCons _ children rest => textsF children ++ textsF rest

/-- `get_text()` with no arguments: concatenation of all strings. -/
def getTextPlain (f : Forest) : String :=
  String.join (textsF f)

/-- `get_text(separator=" ", strip=True)`: the stripped strings, the
whitespace-only ones dropped, joined by single spaces. -/
def getTextSep (f : Forest) : String :=
  String.intercalate (" ") (((textsF f).map pyStrip).filter (fun s => s ≠ ""))

/-- The loop-body test of `get_filing_text`: the block has a `type` tag
whose stripped text equals `"10-K"` (case-sensitive `==`). -/
def docIs10K (children : Forest) : Bool :=
  match findFirstTag ("type") children with
  | some tch => pyStrip (getTextPlain tch) == "10-K"
  | none => false

/-- `get_filing_text`: empty string on a raised exception or a non-200
status; otherwise the text of the first embedded `document` block typed
`10-K`, falling back to the whole page's visible text. -/
def get_filing_text (resp : Except String (Nat × Forest)) : String :=
  match resp with
  | Except.error _ => ""
  | Except.ok r =>
    if r.1 = 200 then
      match (findAllDocs r.2).find? docIs10K with
      | some d => getTextSep d
      | none => getTextSep r.2
    else ""

/-- A three-block filing-index page: a `10-Q` block, a lowercase `10-k`
block (must not match: the comparison is case-sensitive), and a `10-K`
block whose type label needs trimming. -/
def c7Body : Forest :=
  Forest.elemCons ("document")
    (Forest.elemCons ("type") (Forest.textCons ("10-Q") Forest.nil)
      (Forest.textCons ("Quarterly body") Forest.nil))
    (Forest.elemCons ("document")
      (Forest.elemCons ("type") (Forest.textCons ("10-k") Forest.nil)
        (Forest.textCons ("lower body") Forest.nil))
      (Forest.elemCons ("document")
        (Forest.elemCons ("type") (Forest.textCons (" 10-K\n") Forest.nil)
          (Forest.textCons ("Annual body") Forest.nil))
        Forest.nil))

/-- A page with no `10-K` block, to exercise the whole-page fallback. -/
def c7BodyNoMatch : Forest :=
  Forest.textCons ("  Header  ")
    (Forest.elemCons ("document")
      (Forest.elemCons ("type") (Forest.textCons ("10-Q") Forest.nil)
        (Forest.textCons ("Qbody") Forest.nil))
      Forest.nil)

/-! ## `analyze_filings` AI flag and the per-state aggregation
  (SEC_API_Analysis.py lines 273-277 and 302-306) -/

/-- The dict comprehension
`ai_sentences = {acc: extract_ai_sentences(text) for acc, text in clean_docs.items()}`. -/
def aiSentencesMap (clean_docs : List (Option String × String)) : List (Option String × List String) :=
  clean_docs.map (fun p => (p.1, extract_ai_sentences p.2))

/-- `1 if len(ai_sentences.get(acc, [])) > 0 else 0`. -/
def aiFlagFor (m : List (Option String × List String)) (acc : Option String) : Nat :=
  if 0 < (((m.find? (fun q => q.1 == acc)).map Prod.snd).getD []).length then 1 else 0

/-- `analyze_filings` restricted to its data flow: it pairs every header
row with its `AI_Flag`. -/
def analyze_filings (headers : List HeaderRow) (clean_docs : List (Option String × String)) :
    List (HeaderRow × Nat) :=
  headers.map (fun h => (h, aiFlagFor (aiSentencesMap clean_docs) h.accessionNumber))

/-- Lexicographic order on character codes (the order pandas sorts the
ASCII state keys in). -/
def charListLe : List Char → List Char → Bool
  | [], _ => true
  | _ :: _, [] => false
  | a :: as, b :: bs =>
    if a.toNat < b.toNat then true
    else if b.toNat < a.toNat then false
    else charListLe as bs

/-- Insertion of a string into a sorted list (pandas `groupby` sorts the
group keys). -/
def insertSorted (s : String) : List String → List String
  | [] => [s]
  | t :: ts => if charListLe s.data t.data then s :: t :: ts else t :: insertSorted s ts

/-- Insertion sort on strings. -/
def sortStrings : List String → List String
  | [] => []
  | s :: ss => insertSorted s (sortStrings ss)

/-- `headers_df[headers_df["State"] != ""].groupby("State").agg(Total_Filings=..., AI_Filings=...)`:
for each state key (sorted, duplicates removed) the number of rows with
that state and the sum of their AI flags.  Rows with empty `State` are
filtered out first. -/
def state_agg (rows : List (HeaderRow × Nat)) : List (String × Nat × Nat) :=
  let kept := rows.filter (fun r => r.1.state ≠ "")
  let keys := sortStrings (kept.map (fun r => r.1.state)).dedup
  keys.map (fun k =>
    (k, (kept.filter (fun r => r.1.state = k)).length,
      ((kept.filter (fun r => r.1.state = k)).map Prod.snd).sum))

/-! ## Tag-value extractors (SEC_Scrape_Analysis.py lines 237-284)

  `extract_is_officer`, `extract_officer_title`,
  `extract_transaction_type` match pseudo-markup open/close tag pairs
  with `\s*` tolerance around brackets, names and slashes, all under
  `re.IGNORECASE`.
-/

/-- The pattern `<\s*isOfficer\s*>\s*(\d+)\s*<\s*/\s*isOfficer\s*>`
anchored at the head of `cs`; returns the captured digit group. -/
def tryIsOfficer (cs : List Char) : Option (List Char) := do
  let r ← parseChar '<' cs
  let r ← parseLitCI (("isofficer").data) (skipWs r)
  let r ← parseChar '>' (skipWs r)
  let (ds, r) ← parseDigits (skipWs r)
  let r ← parseChar '<' (skipWs r)
  let r ← parseChar '/' (skipWs r)
  let r ← parseLitCI (("isofficer").data) (skipWs r)
  let _ ← parseChar '>' (skipWs r)
  pure ds

/-- `extract_is_officer` (lines 237-240): `match.group(1).strip()` of the
first match, else `None`. -/
def extract_is_officer (text : String) : Option String :=
  (reSearch tryIsOfficer text.data).map (fun ds => String.mk (stripL ds))

/-- The class `[AD]` under `IGNORECASE`. -/
def parseAD : List Char → Option (Char × List Char)
  | [] => none
  | c :: cs => if c = 'A' ∨ c = 'D' ∨ c = 'a' ∨ c = 'd' then some (c, cs) else none

/-- The nested pattern of `extract_transaction_type`:
`<\s*transactionAcquiredDisposedCode\s*>\s*<\s*value\s*>\s*([AD])\s*<\s*/\s*value\s*>\s*<\s*/\s*transactionAcquiredDisposedCode\s*>`
anchored at the head of `cs`; captures the inner-most value. -/
def tryTransaction (cs : List Char) : Option Char := do
  let r ← parseChar '<' cs
  let r ← parseLitCI (("transactionacquireddisposedcode").data) (skipWs r)
  let r ← parseChar '>' (skipWs r)
  let r ← parseChar '<' (skipWs r)
  let r ← parseLitCI (("value").data) (skipWs r)
  let r ← parseChar '>' (skipWs r)
  let (v, r) ← parseAD (skipWs r)
  let r ← parseChar '<' (skipWs r)
  let r ← parseChar '/' (skipWs r)
  let r ← parseLitCI (("value").data) (skipWs r)
  let r ← parseChar '>' (skipWs r)
  let r ← parseChar '<' (skipWs r)
  let r ← parseChar '/' (skipWs r)
  let r ← parseLitCI (("transactionacquireddisposedcode").data) (skipWs r)
  let _ ← parseChar '>' (skipWs r)
  pure v

/-- `extract_transaction_type` (lines 263-269):
`match.group(1).strip().upper()` of the first match, else `None`. -/
def extract_transaction_type (text : String) : Option String :=
  (reSearch tryTransaction text.data).map (fun v => String.mk ((stripL [v]).map pyToUpper))

/-- The closing part `\s*<\s*/\s*officerTitle\s*>` of the officer-title
pattern, anchored at the head of `cs`. -/
def closingTitleAt (cs : List Char) : Bool :=
  (do
    let r ← parseChar '<' (skipWs cs)
    let r ← parseChar '/' (skipWs r)
    let r ← parseLitCI (("officertitle").data) (skipWs r)
    let _ ← parseChar '>' (skipWs r)
    pure () : Option Unit).isSome

/-- The non-greedy capture `(.*?)` of the officer-title pattern (DOTALL):
the shortest prefix after which the closing part matches. -/
def captureTitle : List Char → Option (List Char)
  | [] => if closingTitleAt [] then some [] else none
  | c :: t =>
    if closingTitleAt (c :: t) then some []
    else (captureTitle t).map (fun v => c :: v)

/-- The pattern `<\s*officerTitle\s*>\s*(.*?)\s*<\s*/\s*officerTitle\s*>`
(IGNORECASE, DOTALL) anchored at the head of `cs`; returns the capture. -/
def tryOfficerTitle (cs : List Char) : Option (List Char) := do
  let r ← parseChar '<' cs
  let r ← parseLitCI (("officertitle").data) (skipWs r)
  let r ← parseChar '>' (skipWs r)
  captureTitle (skipWs r)

/-- Python `str.replace(pat, "")` for a non-empty `pat`, scanning left to
right over non-overlapping occurrences; `skip > 0` means the scanner is
inside a replaced occurrence with `skip` characters still to drop. -/
def removeAllAux (pat : List Char) : Nat → List Char → List Char
  | _, [] => []
  | skip + 1, _ :: t => removeAllAux pat skip t
  | 0, c :: t =>
    if startsWithL pat (c :: t) then removeAllAux pat (pat.length - 1) t
    else c :: removeAllAux pat 0 t

/-- Python `str.split()` (split on whitespace runs, no empty parts);
`cur` is the current word reversed. -/
def splitWsAux (cur : List Char) : List Char → List (List Char)
  | [] => if cur.isEmpty then [] else [cur.reverse]
  | c :: t =>
    if isWs c then
      if cur.isEmpty then splitWsAux [] t else cur.reverse :: splitWsAux [] t
    else splitWsAux (c :: cur) t

/-- Python `str.split()`. -/
def pySplitWs (cs : List Char) : List (List Char) :=
  splitWsAux [] cs

/-- Python `" ".join(words)`. -/
def joinSpace : List (List Char) → List Char
  | [] => []
  | [w] => w
  | w :: w2 :: ws => w ++ ' ' :: joinSpace (w2 :: ws)

/-- The cleaning of `extract_officer_title` (lines 251-253):
`title.replace('&amp;', '').replace(',', '')`, then
`" ".join(title_clean.split()).upper()`. -/
def cleanTitle (title : List Char) : String :=
  let t1 := removeAllAux (("&amp;").data) 0 title
  let t2 := removeAllAux ((",").data) 0 t1
  String.mk ((joinSpace (pySplitWs t2)).map pyToUpper)

/-- `extract_officer_title` (lines 247-254): the cleaned first capture,
or the sentinel `"UNKNOWN"`. -/
def extract_officer_title (text : String) : String :=
  match reSearch tryOfficerTitle text.data with
  | some title => cleanTitle title
  | none => "UNKNOWN"

/-- Scanner for two adjacent whitespace characters. -/
def hasDoubleWs : List Char → Bool
  | a :: b :: t => (isWs a && isWs b) || hasDoubleWs (b :: t)
  | _ => false

/-! ## Concrete fixtures for the aggregation scenario (claim C9) -/

/-- A header row fixture with the given state and accession number. -/
def mkHeader (st acc : String) : HeaderRow :=
  { cik := none
    companyName := none
    formType := some ("10-K")
    filingDate := none
    sic := ""
    state := st
    city := ""
    zip := ""
    accessionNumber := some acc
    fileLink := none }

/-- The three-record mock batch of the end-to-end scenario. -/
def c9Headers : List HeaderRow :=
  [mkHeader ("CA") ("A1"), mkHeader ("NY") ("A2"), mkHeader ("CA") ("A3")]

/-- Document texts: `A1` and `A3` mention the phrase (the second in
lowercase, matched case-insensitively), `A2` does not. -/
def c9Docs : List (Option String × String) :=
  [(some ("A1"), "We deploy Artificial Intelligence. More text."),
   (some ("A2"), "We make shoes. Nothing else."),
   (some ("A3"), "Our artificial intelligence platform grows.")]

/-! ## Generic lemmas about scanning and substrings -/

/-- If the pattern matcher fails at every suffix, the left-to-right scan
finds nothing. -/
theorem reSearch_eq_none {α : Type} (f : List Char → Option α) :
    ∀ cs : List Char, (∀ s ∈ cs.tails, f s = none) → reSearch f cs = none := by
  intro cs
  induction cs with
  | nil =>
    intro h
    simpa [reSearch] using h [] (by simp)
  | cons c t ih =>
    intro h
    have hc : f (c :: t) = none := h (c :: t) (by simp)
    simp only [reSearch, hc]
    refine ih (fun s hs => h s ?_)
    rw [List.mem_tails] at hs ⊢
    exact hs.trans (List.suffix_cons c t)

/-- A successful scan is a success of the matcher at some suffix. -/
theorem reSearch_eq_some {α : Type} (f : List Char → Option α) :
    ∀ cs : List Char, ∀ a : α, reSearch f cs = some a → ∃ n : Nat, f (cs.drop n) = some a := by
  intro cs
  induction cs with
  | nil =>
    intro a h
    exact ⟨0, by simpa [reSearch] using h⟩
  | cons c t ih =>
    intro a h
    simp only [reSearch] at h
    cases hf : f (c :: t) with
    | some b =>
      rw [hf] at h
      exact ⟨0, by simpa [hf] using h⟩
    | none =>
      rw [hf] at h
      obtain ⟨n, hn⟩ := ih a h
      exact ⟨n + 1, by simpa using hn⟩

/-- A list starts with itself extended by anything. -/
theorem startsWithL_append_self (pat rest : List Char) :
    startsWithL pat (pat ++ rest) = true := by
  induction pat with
  | nil => simp [startsWithL]
  | cons p ps ih => simp [startsWithL, ih]

/-- Characters of a matched prefix are characters of the list. -/
theorem startsWithL_mem (pat : List Char) :
    ∀ cs : List Char, startsWithL pat cs = true → ∀ c ∈ pat, c ∈ cs := by
  induction pat with
  | nil => simp
  | cons p ps ih =>
    intro cs h c hc
    cases cs with
    | nil => simp [startsWithL] at h
    | cons d ds =>
      simp only [startsWithL, Bool.and_eq_true, beq_iff_eq] at h
      rcases List.mem_cons.mp hc with hcp | hcs
      · simp [hcp, h.1]
      · exact List.mem_cons_of_mem _ (ih ds h.2 c hcs)

/-- A prefix match is in particular a substring occurrence. -/
theorem containsSub_of_startsWith (pat : List Char) :
    ∀ cs : List Char, startsWithL pat cs = true → containsSub pat cs = true := by
  intro cs h
  cases cs with
  | nil => simpa [containsSub] using h
  | cons c t => simp [containsSub, h]

/-- A literal occurrence placed anywhere in a list is found. -/
theorem containsSub_append (pat : List Char) :
    ∀ pre post : List Char, containsSub pat (pre ++ (pat ++ post)) = true := by
  intro pre
  induction pre with
  | nil =>
    intro post
    exact containsSub_of_startsWith pat _ (by simpa using startsWithL_append_self pat post)
  | cons c cs ih =>
    intro post
    simp [containsSub, ih post]

/-- Characters of a found pattern are characters of the list. -/
theorem containsSub_mem (pat : List Char) :
    ∀ cs : List Char, containsSub pat cs = true → ∀ c ∈ pat, c ∈ cs := by
  intro cs
  induction cs with
  | nil =>
    intro h c hc
    cases pat with
    | nil => simp at hc
    | cons p ps => simp [containsSub, startsWithL] at h
  | cons d ds ih =>
    intro h c hc
    simp only [containsSub, Bool.or_eq_true] at h
    rcases h with h | h
    · exact startsWithL_mem pat (d :: ds) h c hc
    · exact List.mem_cons_of_mem _ (ih h c hc)

/-- Finding the pattern in a suffix finds it in the list. -/
theorem containsSub_drop (pat : List Char) :
    ∀ cs : List Char, ∀ n : Nat, containsSub pat (cs.drop n) = true → containsSub pat cs = true := by
  intro cs
  induction cs with
  | nil => intro n h; simpa using h
  | cons c t ih =>
    intro n h
    cases n with
    | zero => simpa using h
    | succ m =>
      simp only [List.drop_succ_cons] at h
      have ht := ih m h
      simp [containsSub, ht]

/-- Decomposition of a successful one-character parse. -/
theorem parseChar_eq (a : Char) (cs r : List Char) (h : parseChar a cs = some r) :
    cs = a :: r := by
  cases cs with
  | nil => simp [parseChar] at h
  | cons c t =>
    by_cases hc : c = a
    · simp [parseChar, hc] at h
      simp [hc, h]
    · simp [parseChar, hc] at h

/-- Decomposition of a successful case-insensitive literal parse: the
consumed prefix case-folds to the pattern. -/
theorem parseLitCI_decomp (pat : List Char) :
    ∀ cs r : List Char, parseLitCI pat cs = some r →
      ∃ pre : List Char, cs = pre ++ r ∧ pre.map pyToLower = pat := by
  induction pat with
  | nil =>
    intro cs r h
    simp [parseLitCI] at h
    exact ⟨[], by simp [h]⟩
  | cons p ps ih =>
    intro cs r h
    cases cs with
    | nil => simp [parseLitCI] at h
    | cons c t =>
      by_cases hc : pyToLower c = p
      · simp only [parseLitCI, hc, if_pos rfl] at h
        obtain ⟨pre, hpre, hmap⟩ := ih t r (by simpa using h)
        exact ⟨c :: pre, by simp [hpre], by simp [hmap, hc]⟩
      · simp [parseLitCI, hc] at h

/-- `skipWs` drops a prefix of the input. -/
theorem skipWs_decomp (cs : List Char) :
    cs = cs.takeWhile isWs ++ skipWs cs := by
  simp [skipWs, List.takeWhile_append_dropWhile]

/-- A successful `<`-then-literal open-tag parse implies the tag name
occurs in the case-folded text. -/
theorem openTag_contains (pat cs r r2 : List Char)
    (h1 : parseChar '<' cs = some r) (h2 : parseLitCI pat (skipWs r) = some r2) :
    containsSub pat (cs.map pyToLower) = true := by
  obtain ⟨pre, hpre, hmap⟩ := parseLitCI_decomp pat (skipWs r) r2 h2
  have hr : r = r.takeWhile isWs ++ (pre ++ r2) := by
    rw [← hpre]; exact skipWs_decomp r
  have hcs : cs = '<' :: (r.takeWhile isWs ++ (pre ++ r2)) := by
    rw [parseChar_eq '<' cs r h1, ← hr]
  rw [hcs]
  have : ('<' :: (r.takeWhile isWs ++ (pre ++ r2))).map pyToLower =
      (pyToLower '<' :: (r.takeWhile isWs).map pyToLower) ++ (pat ++ r2.map pyToLower) := by
    simp [hmap]
  rw [this]
  exact containsSub_append pat _ _

/-! ## Claim C1 — Bounded Section Extractor -/

/-- C1 (counterexample): on the boundary-scenario input the extractor
does not return `"Foo bar. "`; the start marker is part of the match. -/
theorem c1_counterexample :
    extract_item1_business c1Input = "ITEM 1. BUSINESS Foo bar. " ∧
    extract_item1_business c1Input ≠ "Foo bar. " := by
  exact ⟨by decide, by decide⟩

/-- C1 (amended): on the boundary-scenario input `extract_item1_business`
returns `"ITEM 1. BUSINESS Foo bar. "` — the text from the start of the
start marker up to, and excluding, the end marker (the start marker is
included in the result, the end marker is excluded); and for every text
in which the start marker matches nowhere, or no end marker follows any
start-marker match, it returns the empty string. -/
theorem c1_section_extractor_amended :
    extract_item1_business c1Input = "ITEM 1. BUSINESS Foo bar. " ∧
    (∀ text : String,
      ((∀ s ∈ text.data.tails, startParseItem1 s = none) ∨
       (∀ s ∈ text.data.tails, ∀ r, startParseItem1 s = some r → findEnd r = none)) →
      extract_item1_business text = "") := by
  refine ⟨by decide, ?_⟩
  intro text h
  have hnone : reSearch tryItem1 text.data = none := by
    apply reSearch_eq_none
    intro s hs
    rcases h with h | h
    · simp [tryItem1, h s hs]
    · cases hst : startParseItem1 s with
      | none => simp [tryItem1, hst]
      | some r => simp [tryItem1, hst, h s hs r hst]
  simp [extract_item1_business, hnone]

/-- C1 (witness): a concrete marker-free text on which the amended
theorem's empty-string branch fires. -/
theorem c1_witness :
    (∀ s ∈ ("plain text with no markers").data.tails, startParseItem1 s = none) ∧
    extract_item1_business ("plain text with no markers") = "" :=
  ⟨by decide, c1_section_extractor_amended.2 ("plain text with no markers") (Or.inl (by decide))⟩

/-! ## Claim C2 — transport failure in the Paginated Fetcher -/

/-- Changing the fuel does not change the loop as long as the fuel
exceeds `desired - acc.length` (every continuing iteration appends at
least one record), so the `desired + 1` fuel passed by `query_filings`
makes the loop exactly the Python `while` loop. -/
theorem queryLoop_fuel_irrel (api : Nat → Except String (Option (List RawFiling)))
    (desired page_size : Nat) :
    ∀ fuel fuel' start acc reqs, desired - acc.length < fuel → desired - acc.length < fuel' →
      queryLoop api desired page_size fuel start acc reqs =
        queryLoop api desired page_size fuel' start acc reqs := by
  intro fuel
  induction fuel with
  | zero => intro fuel' start acc reqs h h'; omega
  | succ f ih =>
    intro fuel' start acc reqs h h'
    cases fuel' with
    | zero => omega
    | succ f' =>
      simp only [queryLoop]
      by_cases hlen : acc.length < desired
      · simp only [if_pos hlen]
        split
        · rfl
        · split
          · rfl
          · apply ih <;> · simp only [List.length_append, List.length_map, List.length_cons]; omega
      · simp only [if_neg hlen]

/-- C2 (amended): a page-request failure that surfaces as a raised
exception propagates out of `query_filings` (there is no `try/except` in
the routine), aborting the fetch with that error; only a failure that
surfaces as a response carrying no filings list is treated as
exhaustion — the loop stops and returns the records collected so far. -/
theorem c2_transport_failure_amended :
    (∀ (api : Nat → Except String (Option (List RawFiling))) (rands : List Nat)
        (desired page_size : Nat) (e : String),
        0 < desired → api 0 = Except.error e →
        query_filings api rands desired page_size = Except.error e) ∧
    (∀ (api : Nat → Except String (Option (List RawFiling))) (rands : List Nat)
        (desired page_size : Nat) (r : Option (List RawFiling)),
        0 < desired → api 0 = Except.ok r → r.getD [] = [] →
        query_filings api rands desired page_size = Except.ok ([], 1)) ∧
    (∀ (api : Nat → Except String (Option (List RawFiling)))
        (desired page_size fuel start reqs : Nat) (acc : List FilingRec) (e : String),
        acc.length < desired → api start = Except.error e →
        queryLoop api desired page_size (fuel + 1) start acc reqs = Except.error e) := by
  refine ⟨?_, ?_, ?_⟩
  · intro api rands desired ps e hd hapi
    have hloop : queryLoop api desired ps (desired + 1) 0 [] 0 = Except.error e := by
      simp only [queryLoop]
      rw [if_pos (show ([] : List FilingRec).length < desired by simpa using hd), hapi]
    simp [query_filings, hloop, Except.map]
  · intro api rands desired ps r hd hapi hres
    have hloop : queryLoop api desired ps (desired + 1) 0 [] 0 = Except.ok ([], 1) := by
      simp only [queryLoop]
      rw [if_pos (show ([] : List FilingRec).length < desired by simpa using hd), hapi]
      simp [hres]
    simp [query_filings, hloop, Except.map, sampleReduce]
  · intro api desired ps fuel start reqs acc e hlen hapi
    simp only [queryLoop]
    rw [if_pos hlen, hapi]

/-- C2 (counterexample): against a collaborator whose page request
raises, `query_filings` returns the propagated error, not the records
collected so far. -/
theorem c2_counterexample :
    query_filings errApi [] 1 1 = Except.error ("network error") ∧
    query_filings errApi [] 1 1 ≠ Except.ok ([], 1) := by
  refine ⟨rfl, ?_⟩
  intro h
  rw [show query_filings errApi [] 1 1 = Except.error ("network error") from rfl] at h
  exact Except.noConfusion h

/-- C2 (witness): the amended theorem applied to the failing collaborator
at concrete arguments. -/
theorem c2_witness :
    0 < 2 ∧ errApi 0 = Except.error ("network error") ∧
    query_filings errApi [] 2 3 = Except.error ("network error") :=
  ⟨by decide, rfl,
    c2_transport_failure_amended.1 errApi [] 2 3 ("network error") (by decide) rfl⟩

/-! ## Claim C4 — Sampling Reducer -/

/-- Sampling without replacement returns exactly `k` elements whenever
the pool is large enough. -/
theorem sampleAux_length {α : Type} :
    ∀ (k : Nat) (rands : List Nat) (l : List α),
      k ≤ l.length → (sampleAux rands k l).length = k := by
  intro k
  induction k with
  | zero => intro rands l h; rfl
  | succ n ih =>
    intro rands l h
    cases l with
    | nil => simp at h
    | cons c t =>
      have hj : rands.headD 0 % (c :: t).length < (c :: t).length :=
        Nat.mod_lt _ (Nat.succ_pos _)
      simp only [sampleAux, List.length_cons]
      rw [ih rands.tail _ ?_]
      simp only [List.length_append, List.length_take, List.length_drop,
        List.length_cons] at hj h ⊢
      omega

/-- The sample is a sub-multiset of the pool: elements are drawn without
replacement. -/
theorem sampleAux_subperm {α : Type} :
    ∀ (k : Nat) (rands : List Nat) (l : List α),
      ((sampleAux rands k l : List α) : Multiset α) ≤ (l : Multiset α) := by
  intro k
  induction k with
  | zero => intro rands l; simp [sampleAux]
  | succ n ih =>
    intro rands l
    cases l with
    | nil => simp [sampleAux]
    | cons c t =>
      have hj : rands.headD 0 % (c :: t).length < (c :: t).length :=
        Nat.mod_lt _ (Nat.succ_pos _)
      simp only [sampleAux]
      set r0 := rands.headD 0 % (c :: t).length with hr0
      set x := (c :: t).get ⟨r0, hj⟩ with hx
      set pool := (c :: t).take r0 ++ (c :: t).drop (r0 + 1) with hpool
      have hl : c :: t = (c :: t).take r0 ++ (x :: (c :: t).drop (r0 + 1)) := by
        conv_lhs => rw [← List.take_append_drop r0 (c :: t)]
        congr 1
        rw [hx, List.get_eq_getElem, List.getElem_cons_drop]
      have hperm : List.Perm (x :: pool) (c :: t) := by
        conv_rhs => rw [hl]
        exact List.perm_middle.symm
      calc (↑(x :: sampleAux rands.tail n pool) : Multiset α)
          = x ::ₘ ↑(sampleAux rands.tail n pool) := (Multiset.cons_coe _ _).symm
        _ ≤ x ::ₘ ↑pool := Multiset.cons_le_cons _ (ih rands.tail pool)
        _ = (↑(x :: pool) : Multiset α) := Multiset.cons_coe _ _
        _ = ((c :: t : List α) : Multiset α) := Multiset.coe_eq_coe.mpr hperm

/-- The Sampling Reducer always returns `min (len records) target`
records. -/
theorem sampleReduce_length {α : Type} (rands : List Nat) (records : List α) (target : Nat) :
    (sampleReduce rands records target).length = min records.length target := by
  by_cases h : target < records.length
  · rw [sampleReduce, if_pos h, sampleAux_length target rands records (Nat.le_of_lt h)]
    omega
  · rw [sampleReduce, if_neg h]
    omega

/-- C4: for every record list and target, the Sampling Reducer returns
`min (len records) target` records; when `len records ≤ target` the
input is returned unchanged; when `len records > target` the output is
exactly `target` records forming a sub-multiset of the input (drawn
without replacement). -/
theorem c4_sampling_reducer (rands : List Nat) (records : List FilingRec) (target : Nat) :
    (sampleReduce rands records target).length = min records.length target ∧
    (records.length ≤ target → sampleReduce rands records target = records) ∧
    (target < records.length →
      (sampleReduce rands records target).length = target ∧
      ((sampleReduce rands records target : List FilingRec) : Multiset FilingRec) ≤
        (records : Multiset FilingRec)) := by
  refine ⟨sampleReduce_length rands records target, ?_, ?_⟩
  · intro h
    rw [sampleReduce, if_neg (by omega)]
  · intro h
    constructor
    · rw [sampleReduce_length rands records target]; omega
    · rw [sampleReduce, if_pos h]
      exact sampleAux_subperm target rands records

/-- C4 (witness): the reducer applied to a concrete one-record list with
a larger target returns it unchanged. -/
theorem c4_witness :
    ([toRec (mockRaw 0)].length ≤ 2 ∧ sampleReduce [] [toRec (mockRaw 0)] 2 = [toRec (mockRaw 0)]) :=
  ⟨by decide, (c4_sampling_reducer [] [toRec (mockRaw 0)] 2).2.1 (by decide)⟩

/-! ## Claim C3 — pagination termination against the mock source -/

/-- Ceiling division characterised by bracketing between multiples. -/
theorem ceil_div_eq (p j x : Nat) (hp : 0 < p) (hj : 1 ≤ j)
    (h1 : (j - 1) * p < x) (h2 : x ≤ j * p) : (x + p - 1) / p = j := by
  have hsub : (j - 1) * p = j * p - p := by
    cases j with
    | zero => omega
    | succ m => simp [Nat.succ_mul, Nat.succ_sub_one]
  have hple : p ≤ j * p := Nat.le_mul_of_pos_left p hj
  rw [hsub] at h1
  apply Nat.div_eq_of_lt_le
  · omega
  · rw [Nat.succ_mul]
    omega

/-- Running the pagination loop against the mock source from page `j`:
it terminates with `mockReqs n p d` total requests and a record list
whose length matches `min n d` up to the target cut-off. -/
theorem queryLoop_mock (n p d : Nat) (hp : 0 < p) :
    ∀ fuel j reqs (acc : List FilingRec), d - j * p < fuel →
      acc.length = min (j * p) n →
      reqs = j →
      (j = 0 ∨ ((j - 1) * p < d ∧ (j - 1) * p < n)) →
      ∃ l : List FilingRec,
        queryLoop (mockApi n p) d p fuel (j * p) acc reqs = Except.ok (l, mockReqs n p d) ∧
        min l.length d = min n d := by
  intro fuel
  induction fuel with
  | zero => intro j reqs acc h _ _ _; omega
  | succ f ih =>
    intro j reqs acc hfuel hacc hreqs hinv
    subst reqs
    simp only [queryLoop]
    by_cases hlen : acc.length < d
    · rw [if_pos hlen]
      simp only [mockApi, Option.getD_some]
      by_cases hend : n ≤ j * p
      · have hdrop : (List.range n).drop (j * p) = [] := by
          apply List.drop_eq_nil_of_le
          simpa using hend
        rw [hdrop]
        simp only [List.take_nil, List.map_nil]
        have hnd : ¬ d ≤ n := by omega
        have hj : j = (n + p - 1) / p := by
          rcases hinv with h0 | ⟨h1, h2⟩
          · subst h0
            have hn : n = 0 := by omega
            rw [hn]
            exact (Nat.div_eq_of_lt (by omega)).symm
          · rcases Nat.eq_zero_or_pos j with h0 | hj1
            · subst h0
              simp only [Nat.zero_sub, Nat.zero_mul] at h2
              omega
            · exact (ceil_div_eq p j n hp hj1 h2 hend).symm
        have hmr : mockReqs n p d = j + 1 := by
          unfold mockReqs
          rw [if_neg hnd, ← hj]
        refine ⟨acc, ?_, by omega⟩
        rw [hmr]
      · push_neg at hend
        have hjd : j * p < d := by omega
        cases hpage : ((List.range n).drop (j * p)).take p with
        | nil =>
          exfalso
          have hlp := congrArg List.length hpage
          simp only [List.length_take, List.length_drop, List.length_range,
            List.length_nil] at hlp
          omega
        | cons a as =>
          simp only [List.map_cons]
          have hlenpage : as.length + 1 = min p (n - j * p) := by
            have hlp := congrArg List.length hpage
            simpa only [List.length_take, List.length_drop, List.length_range,
              List.length_cons] using hlp.symm
          have hstep : j * p + p = (j + 1) * p := (Nat.succ_mul j p).symm
          rw [hstep]
          have hnewlen : (acc ++ List.map toRec (mockRaw a :: List.map mockRaw as)).length
              = min ((j + 1) * p) n := by
            simp only [List.length_append, List.length_map, List.length_cons, Nat.succ_mul]
            omega
          have hfuel2 : d - (j + 1) * p < f := by
            rw [Nat.succ_mul]
            omega
          obtain ⟨l, hl, hmin⟩ := ih (j + 1) (j + 1)
            (acc ++ List.map toRec (mockRaw a :: List.map mockRaw as))
            hfuel2 hnewlen rfl
            (Or.inr ⟨by simpa [Nat.succ_sub_one] using hjd, by simpa [Nat.succ_sub_one] using hend⟩)
          exact ⟨l, hl, hmin⟩
    · rw [if_neg hlen]
      have hdn : d ≤ n := by omega
      have hj : j = (d + p - 1) / p := by
        rcases hinv with h0 | ⟨h1, h2⟩
        · subst h0
          have hd0 : d = 0 := by omega
          rw [hd0]
          exact (Nat.div_eq_of_lt (by omega)).symm
        · rcases Nat.eq_zero_or_pos j with h0 | hj1
          · subst h0
            have hd0 : d = 0 := by omega
            rw [hd0]
            exact (Nat.div_eq_of_lt (by omega)).symm
          · exact (ceil_div_eq p j d hp hj1 h1 (by omega)).symm
      have hmr : mockReqs n p d = j := by
        unfold mockReqs
        rw [if_pos hdn, ← hj]
      refine ⟨acc, ?_, by omega⟩
      rw [hmr]

/-- C3 (amended): against a mock source of `n` records in pages of size
`p > 0`, `query_filings` with target `d` returns exactly `min n d`
records; it issues `⌈d/p⌉` page requests when `d ≤ n`, and `⌈n/p⌉ + 1`
page requests when `n < d` — one more than `⌈min(n,d)/p⌉`, the extra
request being the empty page that reveals exhaustion.  The loop stops
when the cumulative count reaches the target or a page returns zero
records. -/
theorem c3_pagination_amended (n p d : Nat) (rands : List Nat) (hp : 0 < p) :
    ∃ l : List FilingRec,
      query_filings (mockApi n p) rands d p = Except.ok (l, mockReqs n p d) ∧
      l.length = min n d := by
  obtain ⟨l0, hl0, hmin⟩ := queryLoop_mock n p d hp (d + 1) 0 0 []
    (by omega) (by simp) rfl (Or.inl rfl)
  rw [Nat.zero_mul] at hl0
  refine ⟨sampleReduce rands l0 d, ?_, ?_⟩
  · simp [query_filings, hl0, Except.map, sampleReduce]
  · rw [sampleReduce_length]
    omega

/-- C3 (counterexample): a mock source with 1 record served in pages of
1, queried for 2 records, answers with 2 page requests — more than the
claimed bound `⌈min(N, desired)/P⌉ = 1`. -/
theorem c3_counterexample :
    query_filings (mockApi 1 1) [] 2 1 = Except.ok ([toRec (mockRaw 0)], 2) ∧
    ¬ (2 ≤ (min 1 2 + 1 - 1) / 1) :=
  ⟨rfl, by decide⟩

/-- C3 (witness): the amended theorem at `n = 3`, `p = 2`, `d = 2`. -/
theorem c3_witness :
    0 < 2 ∧ ∃ l : List FilingRec,
      query_filings (mockApi 3 2) [] 2 2 = Except.ok (l, mockReqs 3 2 2) ∧
      l.length = min 3 2 :=
  ⟨by decide, c3_pagination_amended 3 2 2 [] (by decide)⟩

/-! ## Claim C5 — Topic/Sentence Matcher -/

/-- C5: `extract_ai_sentences` returns, in original order and
capitalization, exactly the sentences of the punctuation-plus-whitespace
split whose lowercase form contains the exact phrase
`"artificial intelligence"`; on the scenario input it returns exactly
the second sentence. -/
theorem c5_sentence_matcher :
    extract_ai_sentences c5Input = [c5Sentence] ∧
    (∀ text s : String, s ∈ extract_ai_sentences text ↔
      (s ∈ (splitSentences text.data).map (fun cs => String.mk cs) ∧
        containsSub aiPhrase (s.data.map pyToLower) = true)) ∧
    (∀ text : String, List.Sublist (extract_ai_sentences text)
      ((splitSentences text.data).map (fun cs => String.mk cs))) := by
  refine ⟨by decide, ?_, ?_⟩
  · intro text s
    simp [extract_ai_sentences, List.mem_filter]
  · intro text
    exact List.filter_sublist _

/-- C5 (witness): the membership characterisation applied on the
scenario input to the matching sentence. -/
theorem c5_witness : c5Sentence ∈ extract_ai_sentences c5Input :=
  (c5_sentence_matcher.2.1 c5Input c5Sentence).mpr ⟨by decide, by decide⟩

/-! ## Claim C6 — Entity Enricher state fallback chain -/

/-- C6: the enricher's `State` field is `resolveState` of the looked-up
profile; the chain prefers a non-empty incorporation state, then a
non-empty business-address state, then the mailing-address state, else
`""`; a mailing-only profile yields its mailing state and the empty
profile (also the one returned by `get_submission_data` on a non-200
response) yields `""`. -/
theorem c6_state_fallback :
    (∀ (lookup : Option String → Submission) (rows : List FilingRec) (i : Nat)
        (hi : i < rows.length) (hj : i < (enrich_header_data lookup rows).length),
        ((enrich_header_data lookup rows).get ⟨i, hj⟩).state =
          resolveState (lookup ((rows.get ⟨i, hi⟩).cik))) ∧
    (∀ (sub : Submission) (s : String), sub.stateOfIncorporation = some s → s ≠ "" →
        resolveState sub = s) ∧
    (∀ sub : Submission, sub.stateOfIncorporation.getD ("") = "" →
        ∀ b : String, ((sub.businessAddress.getD {}).state).getD ("") = b → b ≠ "" →
        resolveState sub = b) ∧
    (∀ sub : Submission, sub.stateOfIncorporation.getD ("") = "" →
        ((sub.businessAddress.getD {}).state).getD ("") = "" →
        resolveState sub = ((sub.mailingAddress.getD {}).state).getD ("")) ∧
    (∀ s : String, resolveState { mailingAddress := some { state := some s } } = s) ∧
    resolveState {} = "" ∧
    (∀ (sub : Submission) (status : Nat), status ≠ 200 →
        resolveState (get_submission_data (status, sub)) = "") := by
  refine ⟨?_, ?_, ?_, ?_, ?_, rfl, ?_⟩
  · intro lookup rows i hi hj
    simp [enrich_header_data, List.get_eq_getElem, List.getElem_map, enrichRow]
  · intro sub s h hne
    simp [resolveState, h, hne]
  · intro sub h1 b h2 hbne
    simp [resolveState, h1, h2, hbne]
  · intro sub h1 h2
    simp [resolveState, h1, h2]
  · intro s
    simp [resolveState]
  · intro sub status h
    simp [get_submission_data, if_neg h, resolveState]

/-- C6 (witness): the first link of the chain on a concrete profile with
a non-empty incorporation state. -/
theorem c6_witness :
    (Submission.mk none (some ("CA")) none none none).stateOfIncorporation = some ("CA") ∧
    resolveState (Submission.mk none (some ("CA")) none none none) = "CA" :=
  ⟨rfl, c6_state_fallback.2.1 _ ("CA") rfl (by decide)⟩

/-! ## Claim C7 — Document Fetcher -/

/-- C7: `get_filing_text` returns `""` on a raised exception and on any
non-200 status; on a multi-block page it returns the text of the first
block whose trimmed type label equals `"10-K"` case-sensitively (the
lowercase `10-k` block is skipped); with no matching block it returns
the whole page's visible text, tags stripped and whitespace
normalized. -/
theorem c7_document_fetcher :
    (∀ e : String, get_filing_text (Except.error e) = "") ∧
    (∀ (status : Nat) (body : Forest), status ≠ 200 →
        get_filing_text (Except.ok (status, body)) = "") ∧
    (∀ body : Forest, (∀ d ∈ findAllDocs body, docIs10K d = false) →
        get_filing_text (Except.ok (200, body)) = getTextSep body) ∧
    get_filing_text (Except.ok (200, c7Body)) = "10-K Annual body" ∧
    get_filing_text (Except.ok (200, c7BodyNoMatch)) = "Header 10-Q Qbody" := by
  refine ⟨?_, ?_, ?_, by decide, by decide⟩
  · intro e; rfl
  · intro status body h
    simp [get_filing_text, if_neg h]
  · intro body h
    have hfind : (findAllDocs body).find? docIs10K = none :=
      List.find?_eq_none.mpr (by intro d hd; simp [h d hd])
    simp [get_filing_text, hfind]

/-- C7 (witness): the non-200 branch at a concrete failed response. -/
theorem c7_witness :
    (404 : Nat) ≠ 200 ∧ get_filing_text (Except.ok (404, c7Body)) = "" :=
  ⟨by decide, c7_document_fetcher.2.1 404 c7Body (by decide)⟩

/-! ## Claim C8 — Tag-Value Extractor -/

/-- C8: the round trip `<isOfficer>1</isOfficer> ↦ "1"` holds; arbitrary
whitespace around brackets, tag name and slash is tolerated; the nested
`transactionAcquiredDisposedCode`/`value` pair yields the inner-most
value; and on text without the tag (in particular, text that nowhere
contains the tag name case-insensitively) the extractor returns the
`none` sentinel — it is a total function, nothing is raised. -/
theorem c8_tag_value_extractor :
    extract_is_officer ("<isOfficer>1</isOfficer>") = some ("1") ∧
    extract_is_officer ("< isOfficer >  7  < / isOfficer >") = some ("7") ∧
    extract_transaction_type
      ("<transactionAcquiredDisposedCode><value>A</value></transactionAcquiredDisposedCode>") =
      some ("A") ∧
    (∀ text : String,
      containsSub (("isofficer").data) (text.data.map pyToLower) = false →
      extract_is_officer text = none) ∧
    (∀ text : String, (∀ s ∈ text.data.tails, tryIsOfficer s = none) →
      extract_is_officer text = none) := by
  refine ⟨by decide, by decide, by decide, ?_, ?_⟩
  · intro text h
    cases hres : reSearch tryIsOfficer text.data with
    | none => simp [extract_is_officer, hres]
    | some v =>
      exfalso
      obtain ⟨nn, hn⟩ := reSearch_eq_some tryIsOfficer text.data v hres
      simp only [tryIsOfficer] at hn
      cases h1 : parseChar '<' (text.data.drop nn) with
      | none => simp [h1] at hn
      | some r1 =>
        cases h2 : parseLitCI (("isofficer").data) (skipWs r1) with
        | none => simp [h1, h2] at hn
        | some r2 =>
          have hocc := openTag_contains (("isofficer").data) (text.data.drop nn) r1 r2 h1 h2
          have hsub := containsSub_drop (("isofficer").data) (text.data.map pyToLower) nn
            (by rw [← List.map_drop]; exact hocc)
          rw [h] at hsub
          exact Bool.noConfusion hsub
  · intro text h
    simp [extract_is_officer, reSearch_eq_none tryIsOfficer text.data h]

/-- C8 (witness): the sentinel branch on a concrete tag-free text. -/
theorem c8_witness :
    containsSub (("isofficer").data) (("hello world").data.map pyToLower) = false ∧
    extract_is_officer ("hello world") = none :=
  ⟨by decide, c8_tag_value_extractor.2.2.2.1 ("hello world") (by decide)⟩

/-! ## Claim C9 — Aggregator -/

/-- Membership is preserved by sorted insertion. -/
theorem mem_insertSorted (s x : String) :
    ∀ l : List String, x ∈ insertSorted s l ↔ (x = s ∨ x ∈ l) := by
  intro l
  induction l with
  | nil => simp [insertSorted]
  | cons t ts ih =>
    by_cases hle : charListLe s.data t.data
    · simp [insertSorted, hle]
    · simp only [insertSorted, hle, Bool.false_eq_true, if_false, List.mem_cons, ih]
      tauto

/-- Membership is preserved by the insertion sort. -/
theorem mem_sortStrings (x : String) :
    ∀ l : List String, x ∈ sortStrings l ↔ x ∈ l := by
  intro l
  induction l with
  | nil => simp [sortStrings]
  | cons s ss ih => simp [sortStrings, mem_insertSorted, ih]

/-- C9: a record whose `State` is the empty string contributes to no
per-state aggregate (prepending it changes nothing, and every emitted
group key is non-empty); on the three-record mock batch in which exactly
two documents contain the phrase, the per-state AI-flag sums total 2,
the whole table being `CA ↦ (2 filings, 2 AI)`, `NY ↦ (1 filing, 0 AI)`. -/
theorem c9_aggregator :
    (∀ (rows : List (HeaderRow × Nat)) (r : HeaderRow) (flag : Nat), r.state = "" →
        state_agg ((r, flag) :: rows) = state_agg rows) ∧
    (∀ (rows : List (HeaderRow × Nat)) (entry : String × Nat × Nat),
        entry ∈ state_agg rows → entry.1 ≠ "") ∧
    ((state_agg (analyze_filings c9Headers c9Docs)).map (fun t => t.2.2)).sum = 2 ∧
    state_agg (analyze_filings c9Headers c9Docs) = [("CA", 2, 2), ("NY", 1, 0)] := by
  refine ⟨?_, ?_, by decide, by decide⟩
  · intro rows r flag h
    simp [state_agg, List.filter_cons, h]
  · intro rows entry hmem
    simp only [state_agg] at hmem
    obtain ⟨k, hk, hke⟩ := List.mem_map.mp hmem
    have hk3 := List.mem_dedup.mp ((mem_sortStrings k _).mp hk)
    obtain ⟨rr, hrr, hrrk⟩ := List.mem_map.mp hk3
    have hne : rr.1.state ≠ "" := by
      have hf := List.mem_filter.mp hrr
      simpa using hf.2
    rw [← hke]
    simpa [← hrrk] using hne

/-- C9 (witness): prepending a concrete empty-state record leaves the
aggregate table unchanged. -/
theorem c9_witness :
    (mkHeader ("") ("AX")).state = "" ∧
    state_agg [(mkHeader ("") ("AX"), 1)] = state_agg [] :=
  ⟨rfl, c9_aggregator.1 [] (mkHeader ("") ("AX")) 1 rfl⟩

/-! ## Claim C10 — officer-title normalization -/

/-- `replace(',', '')` leaves no comma in its output. -/
theorem comma_not_mem_removeAll :
    ∀ (cs : List Char) (k : Nat), (',') ∉ removeAllAux (((",").data)) k cs := by
  intro cs
  induction cs with
  | nil => intro k; cases k <;> simp [removeAllAux]
  | cons c t ih =>
    intro k
    cases k with
    | succ m => simpa [removeAllAux] using ih m
    | zero =>
      by_cases hs : startsWithL (((",").data)) (c :: t)
      · simpa [removeAllAux, hs] using ih 0
      · have hc : ¬ c = ',' := by
          intro hcc
          apply hs
          subst hcc
          simp [startsWithL]
        simp only [removeAllAux, if_neg hs, List.mem_cons]
        push_neg
        exact ⟨fun hcc => hc hcc.symm, ih 0⟩

/-- `str.replace` only ever emits characters of its input. -/
theorem mem_removeAllAux (pat : List Char) :
    ∀ (cs : List Char) (k : Nat) (c : Char), c ∈ removeAllAux pat k cs → c ∈ cs := by
  intro cs
  induction cs with
  | nil => intro k c h; cases k <;> simp [removeAllAux] at h
  | cons a t ih =>
    intro k c h
    cases k with
    | succ m => exact List.mem_cons_of_mem a (ih m c (by simpa [removeAllAux] using h))
    | zero =>
      by_cases hs : startsWithL pat (a :: t)
      · rw [removeAllAux, if_pos hs] at h
        exact List.mem_cons_of_mem a (ih (pat.length - 1) c h)
      · rw [removeAllAux, if_neg hs] at h
        rcases List.mem_cons.mp h with hca | hct
        · simp [hca]
        · exact List.mem_cons_of_mem a (ih 0 c hct)

/-- `str.split()` produces only non-empty, whitespace-free words. -/
theorem splitWsAux_words :
    ∀ (cs cur : List Char), (∀ c ∈ cur, isWs c = false) →
      ∀ w ∈ splitWsAux cur cs, w ≠ [] ∧ ∀ c ∈ w, isWs c = false := by
  intro cs
  induction cs with
  | nil =>
    intro cur hcur w hw
    by_cases hemp : cur.isEmpty
    · simp [splitWsAux, hemp] at hw
    · simp only [splitWsAux, hemp, if_false, Bool.false_eq_true, List.mem_singleton] at hw
      subst hw
      refine ⟨by simpa [List.isEmpty_iff] using hemp, ?_⟩
      intro c hc
      exact hcur c (List.mem_reverse.mp hc)
  | cons a t ih =>
    intro cur hcur w hw
    by_cases hws : isWs a
    · by_cases hemp : cur.isEmpty
      · rw [splitWsAux, if_pos hws, if_pos hemp] at hw
        exact ih [] (by simp) w hw
      · rw [splitWsAux, if_pos hws, if_neg hemp] at hw
        rcases List.mem_cons.mp hw with hwr | hwt
        · subst hwr
          refine ⟨by simpa [List.isEmpty_iff] using hemp, ?_⟩
          intro c hc
          exact hcur c (List.mem_reverse.mp hc)
        · exact ih [] (by simp) w hwt
    · rw [splitWsAux, if_neg hws] at hw
      refine ih (a :: cur) ?_ w hw
      intro c hc
      rcases List.mem_cons.mp hc with hca | hcc
      · subst hca
        simpa using hws
      · exact hcur c hcc

/-- `str.split()` only ever emits characters of its input (or of the
carried partial word). -/
theorem mem_splitWsAux :
    ∀ (cs cur w : List Char) (c : Char), w ∈ splitWsAux cur cs → c ∈ w → c ∈ cur ∨ c ∈ cs := by
  intro cs
  induction cs with
  | nil =>
    intro cur w c hw hc
    by_cases hemp : cur.isEmpty
    · simp [splitWsAux, hemp] at hw
    · simp only [splitWsAux, hemp, if_false, Bool.false_eq_true, List.mem_singleton] at hw
      subst hw
      exact Or.inl (List.mem_reverse.mp hc)
  | cons a t ih =>
    intro cur w c hw hc
    by_cases hws : isWs a
    · by_cases hemp : cur.isEmpty
      · rw [splitWsAux, if_pos hws, if_pos hemp] at hw
        rcases ih [] w c hw hc with h0 | ht
        · simp at h0
        · exact Or.inr (List.mem_cons_of_mem a ht)
      · rw [splitWsAux, if_pos hws, if_neg hemp] at hw
        rcases List.mem_cons.mp hw with hwr | hwt
        · subst hwr
          exact Or.inl (List.mem_reverse.mp hc)
        · rcases ih [] w c hwt hc with h0 | ht
          · simp at h0
          · exact Or.inr (List.mem_cons_of_mem a ht)
    · rw [splitWsAux, if_neg hws] at hw
      rcases ih (a :: cur) w c hw hc with h0 | ht
      · rcases List.mem_cons.mp h0 with hca | hcc
        · exact Or.inr (by simp [hca])
        · exact Or.inl hcc
      · exact Or.inr (List.mem_cons_of_mem a ht)

/-- `" ".join` only emits spaces and characters of the words. -/
theorem mem_joinSpace :
    ∀ (ws : List (List Char)) (c : Char), c ∈ joinSpace ws → c = ' ' ∨ ∃ w ∈ ws, c ∈ w := by
  intro ws
  induction ws with
  | nil => intro c h; simp [joinSpace] at h
  | cons w rest ih =>
    intro c h
    cases rest with
    | nil =>
      simp only [joinSpace] at h
      exact Or.inr ⟨w, by simp, h⟩
    | cons w2 ws2 =>
      simp only [joinSpace] at h
      rcases List.mem_append.mp h with hw | hrest
      · exact Or.inr ⟨w, by simp, hw⟩
      · rcases List.mem_cons.mp hrest with hsp | hjoin
        · exact Or.inl hsp
        · rcases ih c hjoin with hsp | ⟨w3, hw3, hcw3⟩
          · exact Or.inl hsp
          · exact Or.inr ⟨w3, by simp [hw3], hcw3⟩

/-- Prepending whitespace-free characters cannot create an adjacent
whitespace pair. -/
theorem hasDoubleWs_append_nonws :
    ∀ (w rest : List Char), (∀ c ∈ w, isWs c = false) →
      hasDoubleWs (w ++ rest) = hasDoubleWs rest := by
  intro w
  induction w with
  | nil => intro rest _; rfl
  | cons c w' ih =>
    intro rest hnw
    have hc : isWs c = false := hnw c (by simp)
    cases w' with
    | nil =>
      cases rest with
      | nil => simp [hasDoubleWs]
      | cons r rs => simp [hasDoubleWs, hc]
    | cons d w2 =>
      have hrest := ih rest (fun x hx => hnw x (List.mem_cons_of_mem c hx))
      simp only [List.cons_append] at hrest ⊢
      rw [hasDoubleWs, hc]
      simpa using hrest

/-- The head of a space-join is the head of the first (non-empty) word. -/
theorem joinSpace_head (w2 : List Char) (ws2 : List (List Char)) (hne : w2 ≠ []) :
    ∀ (a : Char) (l' : List Char), joinSpace (w2 :: ws2) = a :: l' → a ∈ w2 := by
  intro a l' h
  cases ws2 with
  | nil =>
    simp only [joinSpace] at h
    rw [h]
    simp
  | cons w3 ws3 =>
    cases w2 with
    | nil => exact absurd rfl hne
    | cons b w2' =>
      simp only [joinSpace, List.cons_append, List.cons.injEq] at h
      simp [h.1]

/-- Joining non-empty whitespace-free words with single spaces yields no
adjacent whitespace pair. -/
theorem hasDoubleWs_joinSpace :
    ∀ ws : List (List Char),
      (∀ w ∈ ws, w ≠ [] ∧ ∀ c ∈ w, isWs c = false) →
      hasDoubleWs (joinSpace ws) = false := by
  intro ws
  induction ws with
  | nil => intro _; rfl
  | cons w rest ih =>
    intro hgood
    have hw := hgood w (by simp)
    cases rest with
    | nil =>
      have h0 := hasDoubleWs_append_nonws w [] hw.2
      simpa [joinSpace] using h0
    | cons w2 ws2 =>
      have hw2 := hgood w2 (by simp)
      have hrest : hasDoubleWs (joinSpace (w2 :: ws2)) = false :=
        ih (fun x hx => hgood x (List.mem_cons_of_mem w hx))
      simp only [joinSpace]
      rw [hasDoubleWs_append_nonws w _ hw.2]
      cases hj : joinSpace (w2 :: ws2) with
      | nil => rfl
      | cons a l' =>
        have ha : isWs a = false := hw2.2 a (joinSpace_head w2 ws2 hw2.1 a l' hj)
        rw [hj] at hrest
        simp [hasDoubleWs, ha, hrest]

/-- Uppercasing never produces an ASCII lowercase letter. -/
theorem isLowerAscii_pyToUpper (c : Char) : isLowerAscii (pyToUpper c) = false := by
  by_cases hl : isLowerAscii c
  · rw [pyToUpper, if_pos hl]
    simp only [isLowerAscii, Bool.and_eq_true, decide_eq_true_eq] at hl
    obtain ⟨h1, h2⟩ := hl
    have hm1 : 65 ≤ c.toNat - 32 := by omega
    have hm2 : c.toNat - 32 ≤ 90 := by omega
    set m := c.toNat - 32 with hm
    interval_cases m <;> decide
  · rw [pyToUpper, if_neg hl]
    simpa using hl

/-- Uppercasing maps non-whitespace to non-whitespace and whitespace to
itself. -/
theorem isWs_pyToUpper (c : Char) : isWs (pyToUpper c) = isWs c := by
  by_cases hl : isLowerAscii c
  · rw [pyToUpper, if_pos hl]
    simp only [isLowerAscii, Bool.and_eq_true, decide_eq_true_eq] at hl
    obtain ⟨h1, h2⟩ := hl
    have hws : isWs c = false := by
      simp only [isWs, Bool.or_eq_false_iff, decide_eq_false_iff_not]
      omega
    rw [hws]
    have hm1 : 65 ≤ c.toNat - 32 := by omega
    have hm2 : c.toNat - 32 ≤ 90 := by omega
    set m := c.toNat - 32 with hm
    interval_cases m <;> decide
  · rw [pyToUpper, if_neg hl]

/-- Uppercasing maps only the comma to the comma. -/
theorem pyToUpper_eq_comma (c : Char) (h : pyToUpper c = ',') : c = ',' := by
  by_cases hl : isLowerAscii c
  · exfalso
    rw [pyToUpper, if_pos hl] at h
    simp only [isLowerAscii, Bool.and_eq_true, decide_eq_true_eq] at hl
    obtain ⟨h1, h2⟩ := hl
    have hm1 : 65 ≤ c.toNat - 32 := by omega
    have hm2 : c.toNat - 32 ≤ 90 := by omega
    set m := c.toNat - 32 with hm
    interval_cases m <;> exact absurd h (by decide)
  · rwa [pyToUpper, if_neg hl] at h

/-- Uppercasing preserves the absence of adjacent whitespace pairs. -/
theorem hasDoubleWs_map_pyToUpper :
    ∀ l : List Char, hasDoubleWs (l.map pyToUpper) = hasDoubleWs l := by
  intro l
  induction l with
  | nil => rfl
  | cons a t ih =>
    cases t with
    | nil => rfl
    | cons b t2 =>
      simp only [List.map_cons] at ih ⊢
      rw [hasDoubleWs, hasDoubleWs, isWs_pyToUpper, isWs_pyToUpper, ih]

/-- The cleaned title has no adjacent whitespace, no ASCII lowercase
letter, no comma, and no `&amp;` occurrence. -/
theorem cleanTitle_props (title : List Char) :
    hasDoubleWs (cleanTitle title).data = false ∧
    (∀ c ∈ (cleanTitle title).data, isLowerAscii c = false) ∧
    (',') ∉ (cleanTitle title).data ∧
    containsSub (("&amp;").data) (cleanTitle title).data = false := by
  have hdata : (cleanTitle title).data =
      (joinSpace (pySplitWs (removeAllAux (((",").data)) 0
        (removeAllAux (("&amp;").data) 0 title)))).map pyToUpper := rfl
  set t2 := removeAllAux (((",").data)) 0 (removeAllAux (("&amp;").data) 0 title) with ht2
  have hwords := splitWsAux_words t2 [] (by simp)
  have hlower : ∀ c ∈ (cleanTitle title).data, isLowerAscii c = false := by
    intro c hc
    rw [hdata] at hc
    obtain ⟨x, hx, hxc⟩ := List.mem_map.mp hc
    rw [← hxc]
    exact isLowerAscii_pyToUpper x
  refine ⟨?_, hlower, ?_, ?_⟩
  · rw [hdata, hasDoubleWs_map_pyToUpper]
    exact hasDoubleWs_joinSpace _ (fun w hw => hwords w hw)
  · intro hc
    rw [hdata] at hc
    obtain ⟨x, hx, hxc⟩ := List.mem_map.mp hc
    have hx2 : x = ',' := pyToUpper_eq_comma x hxc
    subst hx2
    rcases mem_joinSpace _ ',' hx with hsp | ⟨w, hw, hcw⟩
    · exact absurd hsp (by decide)
    · rcases mem_splitWsAux t2 [] w ',' hw hcw with h0 | ht
      · simp at h0
      · exact comma_not_mem_removeAll _ 0 ht
  · by_contra hcon
    rw [Bool.not_eq_false] at hcon
    have hamem : ('a') ∈ (cleanTitle title).data :=
      containsSub_mem _ _ hcon 'a' (by decide)
    exact absurd (hlower 'a' hamem) (by decide)

/-- C10: `extract_officer_title` returns `"UNKNOWN"` whenever the tag
name occurs nowhere in the case-folded text (in particular when no
`officerTitle` tag pair is present); every value it returns contains no
ASCII lowercase letter, no comma, no `&amp;` sequence, and no two
adjacent whitespace characters; on a concrete raw title all four
normalizations are visible at once. -/
theorem c10_officer_title :
    (∀ text : String,
      hasDoubleWs (extract_officer_title text).data = false ∧
      (∀ c ∈ (extract_officer_title text).data, isLowerAscii c = false) ∧
      (',') ∉ (extract_officer_title text).data ∧
      containsSub (("&amp;").data) (extract_officer_title text).data = false) ∧
    (∀ text : String,
      containsSub (("officertitle").data) (text.data.map pyToLower) = false →
      extract_officer_title text = "UNKNOWN") ∧
    extract_officer_title ("<officerTitle> Chief  Financial Officer, VP &amp; Treasurer </officerTitle>") =
      "CHIEF FINANCIAL OFFICER VP TREASURER" := by
  refine ⟨?_, ?_, by decide⟩
  · intro text
    cases hres : reSearch tryOfficerTitle text.data with
    | some t =>
      have heq : extract_officer_title text = cleanTitle t := by
        simp [extract_officer_title, hres]
      rw [heq]
      exact cleanTitle_props t
    | none =>
      have heq : extract_officer_title text = "UNKNOWN" := by
        simp [extract_officer_title, hres]
      rw [heq]
      exact ⟨by decide, by decide, by decide, by decide⟩
  · intro text h
    cases hres : reSearch tryOfficerTitle text.data with
    | none => simp [extract_officer_title, hres]
    | some v =>
      exfalso
      obtain ⟨nn, hn⟩ := reSearch_eq_some tryOfficerTitle text.data v hres
      simp only [tryOfficerTitle] at hn
      cases h1 : parseChar '<' (text.data.drop nn) with
      | none => simp [h1] at hn
      | some r1 =>
        cases h2 : parseLitCI (("officertitle").data) (skipWs r1) with
        | none => simp [h1, h2] at hn
        | some r2 =>
          have hocc := openTag_contains (("officertitle").data) (text.data.drop nn) r1 r2 h1 h2
          have hsub := containsSub_drop (("officertitle").data) (text.data.map pyToLower) nn
            (by rw [← List.map_drop]; exact hocc)
          rw [h] at hsub
          exact Bool.noConfusion hsub

/-- C10 (witness): the sentinel branch at a concrete tag-free text. -/
theorem c10_witness :
    containsSub (("officertitle").data) (("plain report").data.map pyToLower) = false ∧
    extract_officer_title ("plain report") = "UNKNOWN" :=
  ⟨by decide, c10_officer_title.2.1 ("plain report") (by decide)⟩
